import Mathlib

/-!
# Web Search plugin (`src/main.js`): engine registry, menu, commands, view routing

A shallow embedding of the parts of `main.js` that decide how the ordered list of
custom search engines is reordered, shown in the editor context menu, turned into
commands, turned into search URLs, routed to the single webview leaf, and merged
with the default settings at load time.

Conventions of the embedding:

* a JavaScript array is a `List`; `undefined` read from an array is `none`;
* a JavaScript closure is a Lean function whose captured variables are the
  arguments it was built from;
* the host (Obsidian) is an explicit state: the active editor, the workspace
  leaves, the stored data record;
* a string is a Lean `String`, a sequence of Unicode scalar values (a JavaScript
  string holding a lone surrogate has no counterpart here).
-/

namespace WebSearch

/-! ## Data model -/

/-- One element of `settings.customSearchEngines` (`{ name, url, selected }`, line 317). -/
structure SearchEngine where
  name : String
  url : String
  selected : Bool
  deriving DecidableEq, Repr

/-- The JavaScript primitives that meet in the guard of `ondrop` (line 272). -/
inductive JSPrim where
  | num (n : Nat)
  | str (s : String)
  deriving DecidableEq, Repr

/-- Strict equality `===` on primitives: values of different types are never equal. -/
def strictEquals : JSPrim → JSPrim → Bool
  | .num a, .num b => a == b
  | .str a, .str b => a == b
  | _, _ => false

/-- Strict inequality `!==`. -/
def strictNotEquals (a b : JSPrim) : Bool := !(strictEquals a b)

/-! ## Drag-and-drop reorder (lines 254-279) -/

/-- The array left by `arr.splice(start, deleteCount, ...items)` for non-negative
integer `start` and `deleteCount` (both are clamped to the array as the language
prescribes). -/
def splice {α : Type} (arr : List α) (start deleteCount : Nat) (items : List α) : List α :=
  let len := arr.length
  let actualStart := min start len
  let actualDeleteCount := min deleteCount (len - actualStart)
  arr.take actualStart ++ items ++ arr.drop (actualStart + actualDeleteCount)

/-- The text that `ondragstart` of row `index` stores in the drag data (line 255). -/
def ondragstart (index : Nat) : JSPrim := .str (toString index)

/-- The handler `ondrop` of the row at `index`, for a drag that started on row
`dragged` (lines 267-279): the array `customSearchEngines` after the handler.
`draggedIndex` is the string written by `ondragstart`, `droppedIndex` the number
`index`; used as an array index and as a `splice` position the string denotes
`dragged` again. The element read at `dragged` is `none` (`undefined`) when there is
no such row, which is why the result is a list of optional engines. -/
def ondrop {α : Type} (customSearchEngines : List α) (dragged index : Nat) : List (Option α) :=
  let draggedIndex := ondragstart dragged
  let droppedIndex := JSPrim.num index
  let arr := customSearchEngines.map some
  if strictNotEquals draggedIndex droppedIndex then
    let draggedEngine := customSearchEngines[dragged]?
    let arr1 := splice arr dragged 1 []
    splice arr1 index 0 [draggedEngine]
  else
    arr

/-! ## Search URL (lines 124 and 191) -/

/-- The characters `encodeURIComponent` leaves as they are: ASCII letters, decimal
digits and `- _ . ! ~ * ' ( )`. -/
def uriUnreserved (c : Char) : Bool :=
  let n := c.toNat
  (65 ≤ n && n ≤ 90) || (97 ≤ n && n ≤ 122) || (48 ≤ n && n ≤ 57) ||
    [45, 95, 46, 33, 126, 42, 39, 40, 41].contains n

/-- The UTF-8 octets of a code point. -/
def utf8Octets (n : Nat) : List Nat :=
  if n < 0x80 then [n]
  else if n < 0x800 then [0xC0 + n / 64, 0x80 + n % 64]
  else if n < 0x10000 then [0xE0 + n / 4096, 0x80 + n / 64 % 64, 0x80 + n % 64]
  else [0xF0 + n / 262144, 0x80 + n / 4096 % 64, 0x80 + n / 64 % 64, 0x80 + n % 64]

/-- One upper-case hexadecimal digit. -/
def hexDigit (n : Nat) : Char :=
  if n < 10 then Char.ofNat (48 + n) else Char.ofNat (55 + n)

/-- The escape `%XY` of one octet. -/
def percentEscape (octet : Nat) : List Char :=
  ['%', hexDigit (octet / 16), hexDigit (octet % 16)]

/-- What `encodeURIComponent` writes for one character of its argument. -/
def encodeChar (c : Char) : List Char :=
  if uriUnreserved c then [c]
  else (utf8Octets c.toNat).foldr (fun octet rest => percentEscape octet ++ rest) []

/-- The global function `encodeURIComponent` on a well-formed string. -/
def encodeURIComponent (s : String) : String :=
  String.mk (s.data.foldr (fun c rest => encodeChar c ++ rest) [])

/-- The template literal of lines 124 and 191: the engine's URL followed by the
escaped selection. -/
def searchUrl (engine : SearchEngine) (selectedText : String) : String :=
  engine.url ++ encodeURIComponent selectedText

/-! ## Host objects seen by the handlers -/

/-- An editor of the host: `getSelection()` returns `selection`. -/
structure Editor where
  selection : String
  deriving DecidableEq, Repr

/-- A call made by a handler on the plugin or on the host. -/
inductive Call where
  | activateWebview (url : String) (engineName : String)
  | notice (message : String)
  deriving DecidableEq, Repr

/-- An entry added with `menu.addItem`: its title, its icon and its click handler.
The handler is run later, in the host state of the click; `activeEditor` is the
editor (if any) active at that moment. -/
structure MenuItem where
  title : String
  icon : String
  onClick : (activeEditor : Option Editor) → List Call

/-! ## Editor context menu (lines 115-139) -/

/-- The entry built for one selected engine (lines 120-127). `selectedText` is the
variable of the enclosing handler, captured by the click handler. -/
def engineItem (selectedText : String) (engine : SearchEngine) : MenuItem :=
  { title := engine.name
    icon := "search"
    onClick := fun _ => [Call.activateWebview (searchUrl engine selectedText) engine.name] }

/-- The entry built when there is no custom engine (lines 131-137). -/
def noEngineItem : MenuItem :=
  { title := "无自定义搜索引擎"
    icon := "search"
    onClick := fun _ => [Call.notice "请在设置中添加一个自定义搜索引擎"] }

/-- The handler of the `editor-menu` event (lines 115-139): the menu after the
handler, from the menu `menu` the host passes in, the editor whose menu opens and
`settings.customSearchEngines`. -/
def editorMenu (customSearchEngines : List SearchEngine) (menu : List MenuItem)
    (editor : Editor) : List MenuItem :=
  let selectedText := editor.selection
  let customEngines := customSearchEngines
  let menu1 := (customEngines.filter (fun engine => engine.selected)).foldl
    (fun m engine => m ++ [engineItem selectedText engine]) menu
  if customEngines.length = 0 then menu1 ++ [noEngineItem] else menu1

/-- The selection toggle of row `index` (lines 284-287):
`customSearchEngines[index].selected = value`. `none` is the `TypeError` of
assigning to a property of `undefined`. -/
def setSelected (customSearchEngines : List SearchEngine) (index : Nat) (value : Bool) :
    Option (List SearchEngine) :=
  match customSearchEngines[index]? with
  | none => none
  | some engine => some (customSearchEngines.set index { engine with selected := value })

/-! ## Commands (lines 179-197) -/

/-- What one run of a `checkCallback` does: the value it returns (`none` is
`undefined`) and the calls it makes. -/
structure CheckResult where
  returned : Option Bool
  calls : List Call
  deriving DecidableEq, Repr

/-- The `checkCallback` of the command of `engine` (lines 184-194).
`activeEditor` is `this.app.workspace.activeEditor` (`none` is `null`). -/
def checkCallback (engine : SearchEngine) (activeEditor : Option Editor) (checking : Bool) :
    CheckResult :=
  if checking then
    { returned := some activeEditor.isSome, calls := [] }
  else
    match activeEditor with
    | some editor =>
        let selectedText := editor.selection
        { returned := none, calls := [Call.activateWebview (searchUrl engine selectedText) engine.name] }
    | none => { returned := none, calls := [] }

/-- The object handed to `addCommand`. -/
structure Command where
  id : String
  name : String
  checkCallback : (activeEditor : Option Editor) → (checking : Bool) → CheckResult

/-- The command built for one engine (lines 181-195). -/
def engineCommand (engine : SearchEngine) : Command :=
  { id := "search-with-" ++ engine.name
    name := "使用 " ++ engine.name ++ " 搜索"
    checkCallback := checkCallback engine }

/-- `addCommandsForCustomEngines` (lines 179-197): the sequence of `addCommand`
calls, appended to the commands registered so far. -/
def addCommandsForCustomEngines (customSearchEngines : List SearchEngine)
    (commands : List Command) : List Command :=
  customSearchEngines.foldl (fun cs engine => cs ++ [engineCommand engine]) commands

/-! ## The webview leaf (lines 3-100, 149-165) -/

/-- The `webview` element built by `onOpen`: its `src` and `useragent` attributes
(`none` when the attribute is not set). -/
structure Webview where
  src : Option String
  useragent : Option String
  deriving DecidableEq, Repr

/-- An instance of `WebviewView`: `webview` is `this.webview`, set by `onOpen`. -/
structure WebviewView where
  webview : Option Webview
  deriving DecidableEq, Repr

/-- The view held by a workspace leaf. -/
inductive View where
  | empty
  | webviewView (view : WebviewView)
  | other (viewType : String)
  deriving DecidableEq, Repr

/-- The method `getViewType()` of a view (line 10 for `WebviewView`). `other` stands
for every view that is not an instance of `WebviewView`. -/
def View.getViewType : View → String
  | .empty => "empty"
  | .webviewView _ => "webview-view"
  | .other viewType => viewType

/-- A workspace leaf. -/
structure Leaf where
  view : View
  deriving DecidableEq, Repr

/-- The plugin together with the part of the host workspace it acts on. -/
structure Plugin where
  leaves : List Leaf
  revealed : Option Nat
  currentEngineName : Option String
  useMobileUserAgent : Bool
  deriving DecidableEq, Repr

/-- The user agent set by `onOpen` in mobile mode (line 32). -/
def mobileUserAgent : String :=
  "Mozilla/5.0 (Linux; Android 10; SM-G975F) AppleWebKit/537.36 (KHTML, like Gecko) Chrome/88.0.4324.93 Mobile Safari/537.36"

/-- The view registered for `webview-view` (line 107) once opened: `onOpen`
(lines 20-67) builds the `webview` element, without `src`, and stores it. -/
def onOpen (useMobileUserAgent : Bool) : WebviewView :=
  { webview := some
      { src := none
        useragent := if useMobileUserAgent then some mobileUserAgent else none } }

/-- The method `setUrl` (lines 73-77). -/
def WebviewView.setUrl (view : WebviewView) (url : String) : WebviewView :=
  match view.webview with
  | some webview => { view with webview := some { webview with src := some url } }
  | none => view

/-- Host: `workspace.getLeavesOfType(viewType)`. -/
def getLeavesOfType (leaves : List Leaf) (viewType : String) : List Leaf :=
  leaves.filter (fun leaf => leaf.view.getViewType == viewType)

/-- Host: the position of `getLeavesOfType(viewType).first()` among the leaves, `none`
when there is no such leaf. -/
def firstLeafOfType (viewType : String) : List Leaf → Option Nat
  | [] => none
  | leaf :: rest =>
      if leaf.view.getViewType == viewType then some 0
      else (firstLeafOfType viewType rest).map (· + 1)

/-- Host: `leaf.setViewState` with type `webview-view`, awaited, on the leaf at
position `i`. A leaf whose view already has that type
keeps its view; otherwise the host builds the registered view and opens it. -/
def setViewState (p : Plugin) (i : Nat) : Plugin :=
  match p.leaves[i]? with
  | none => p
  | some leaf =>
      if leaf.view.getViewType == "webview-view" then p
      else { p with leaves := p.leaves.set i { view := .webviewView (onOpen p.useMobileUserAgent) } }

/-- The tail of `activateWebview` (lines 158-164) for the leaf at position `leaf`. -/
def showInLeaf (p : Plugin) (leaf : Nat) (url engineName : String) : Plugin :=
  match p.leaves[leaf]? with
  | some { view := .webviewView view } =>
      let p1 := { p with currentEngineName := some engineName }
      let p2 := { p1 with leaves := p1.leaves.set leaf { view := .webviewView (view.setUrl url) } }
      let p3 := setViewState p2 leaf
      { p3 with revealed := some leaf }
  | _ => p

/-- The method `activateWebview` (lines 149-165), run to completion. -/
def activateWebview (p : Plugin) (url engineName : String) : Plugin :=
  match firstLeafOfType "webview-view" p.leaves with
  | some leaf => showInLeaf p leaf url engineName
  | none =>
      let leaf := p.leaves.length
      let p1 := { p with leaves := p.leaves ++ [{ view := .empty }] }
      let p2 := setViewState p1 leaf
      showInLeaf p2 leaf url engineName

/-! ## Settings (lines 171-177, 200-204) -/

/-- A value of the settings record. -/
inductive JSValue where
  | bool (b : Bool)
  | str (s : String)
  | engines (list : List SearchEngine)
  deriving DecidableEq, Repr

/-- A plain object (one whose prototype chain ends in `Object.prototype`): its own
properties in insertion order. An object read from the store may have any own key,
also `__proto__`. -/
abbrev JSObject := List (String × JSValue)

/-- The own property keys of an object. -/
def keys (o : JSObject) : List String := o.map Prod.fst

/-- The value of the own property `key` of `o`; `none` when `o` has no such own
property. -/
def getProp : JSObject → String → Option JSValue
  | [], _ => none
  | (k, v) :: rest, key => if k = key then some v else getProp rest key

/-- Writing `o[key] = value` on a plain object: an own property is updated in place;
a key that is not yet an own property is added at the end, except `__proto__`, for
which the write reaches the setter inherited from `Object.prototype` and creates no
own property (the prototype that setter may install is not part of the model). -/
def setProp : JSObject → String → JSValue → JSObject
  | [], key, value => if key = "__proto__" then [] else [(key, value)]
  | (k, v) :: rest, key, value =>
      if k = key then (k, value) :: rest else (k, v) :: setProp rest key value

/-- The call `Object.assign(target, ...sources)`: the own properties of each source
are written to the target in order, each with `target[key] = value`; a `null` source
(`none`) is skipped. -/
def objectAssign (target : JSObject) (sources : List (Option JSObject)) : JSObject :=
  sources.foldl (fun t source =>
    match source with
    | none => t
    | some s => s.foldl (fun t kv => setProp t kv.1 kv.2) t) target

/-- The constant `DEFAULT_SETTINGS` (lines 200-204). -/
def DEFAULT_SETTINGS : JSObject :=
  [("useMobileUserAgent", .bool false),
   ("buttonOpacity", .str "不透明"),
   ("customSearchEngines", .engines [])]

/-- The method `loadSettings` (lines 171-173): `this.settings` after the call, from
the value `loadData()` resolves to (`none` is `null`, no stored data). -/
def loadSettings (loadData : Option JSObject) : JSObject :=
  objectAssign [] [some DEFAULT_SETTINGS, loadData]

/-- The method `saveSettings` (lines 175-177): the stored data after
`saveData(this.settings)`. -/
def saveSettings (settings : JSObject) : Option JSObject := some settings

/-! ## Helper lemmas: reorder -/

theorem strictNotEquals_str_num (s : String) (n : Nat) :
    strictNotEquals (.str s) (.num n) = true := rfl

theorem splice_remove_one {α : Type} (l : List α) (i : Nat) (h : i < l.length) :
    splice l i 1 [] = l.eraseIdx i := by
  have h1 : min i l.length = i := by omega
  have h2 : min 1 (l.length - i) = 1 := by omega
  simp only [splice, h1, h2, List.append_nil]
  exact (List.eraseIdx_eq_take_drop_succ l i).symm

theorem insertIdx_eq_take_drop {α : Type} (x : α) :
    ∀ (n : Nat) (l : List α), n ≤ l.length → l.insertIdx n x = l.take n ++ x :: l.drop n
  | 0, l, _ => by simp
  | n + 1, [], h => by simp at h
  | n + 1, a :: l, h => by
      have h1 : n ≤ l.length := by simpa using h
      simp [List.insertIdx_succ_cons, insertIdx_eq_take_drop x n l h1]

theorem splice_insert_one {α : Type} (l : List α) (i : Nat) (x : α) (h : i ≤ l.length) :
    splice l i 0 [x] = l.insertIdx i x := by
  have h1 : min i l.length = i := by omega
  simp only [splice, h1, Nat.zero_min, Nat.add_zero]
  rw [insertIdx_eq_take_drop x i l h]
  simp

theorem ondrop_eq_erase_insert {α : Type} (l : List α) (i j : Nat)
    (hi : i < l.length) (hj : j < l.length) :
    ondrop l i j = ((l.eraseIdx i).insertIdx j (l.get ⟨i, hi⟩)).map some := by
  have hlen : ((l.map some).eraseIdx i).length = l.length - 1 := by
    rw [List.length_eraseIdx]; simp [hi]
  have hget : l[i]? = some (l.get ⟨i, hi⟩) := by simp [List.getElem?_eq_getElem hi]
  simp only [ondrop, ondragstart, strictNotEquals_str_num, if_true]
  rw [splice_remove_one _ _ (by simpa using hi), splice_insert_one _ _ _ (by omega), hget]
  have hj2 : j ≤ (l.eraseIdx i).length := by
    rw [List.length_eraseIdx]; simp [hi]; omega
  rw [insertIdx_eq_take_drop _ _ _ (by omega), insertIdx_eq_take_drop _ _ _ hj2]
  simp [List.eraseIdx_eq_take_drop_succ, List.map_take, List.map_drop]

theorem cons_eraseIdx_perm {α : Type} (l : List α) (i : Nat) (hi : i < l.length) :
    (l.get ⟨i, hi⟩ :: l.eraseIdx i).Perm l := by
  induction l generalizing i with
  | nil => simp at hi
  | cons a l ih =>
      cases i with
      | zero => simp
      | succ i =>
          have hi2 : i < l.length := by simpa using hi
          have h := ih i hi2
          simp only [List.get_eq_getElem, List.getElem_cons_succ, List.eraseIdx_cons_succ] at h ⊢
          exact (List.Perm.swap a l[i] (l.eraseIdx i)).trans (List.Perm.cons a h)

theorem insertIdx_eraseIdx_self {α : Type} (l : List α) (i : Nat) (hi : i < l.length) :
    (l.eraseIdx i).insertIdx i (l.get ⟨i, hi⟩) = l := by
  induction l generalizing i with
  | nil => simp at hi
  | cons a l ih =>
      cases i with
      | zero => simp
      | succ i =>
          have hi2 : i < l.length := by simpa using hi
          have h := ih i hi2
          simp only [List.get_eq_getElem, List.getElem_cons_succ, List.eraseIdx_cons_succ,
            List.insertIdx_succ_cons] at h ⊢
          rw [h]

theorem eraseIdx_map {α β : Type} (f : α → β) :
    ∀ (l : List α) (i : Nat), (l.map f).eraseIdx i = (l.eraseIdx i).map f
  | [], _ => by simp
  | _ :: _, 0 => by simp
  | a :: l, i + 1 => by simp [eraseIdx_map f l i]

theorem length_eraseIdx_of_valid {α : Type} (l : List α) (i j : Nat)
    (hi : i < l.length) (hj : j < l.length) : j ≤ (l.eraseIdx i).length := by
  rw [List.length_eraseIdx]; simp [hi]; omega

/-! ## Helper lemmas: menu and commands -/

theorem foldl_append_singleton {α β : Type} (f : α → β) :
    ∀ (l : List α) (init : List β),
      l.foldl (fun m x => m ++ [f x]) init = init ++ l.map f
  | [], init => by simp
  | a :: l, init => by
      simp [List.foldl_cons, foldl_append_singleton f l (init ++ [f a])]

theorem editorMenu_eq (engines : List SearchEngine) (menu : List MenuItem) (editor : Editor) :
    editorMenu engines menu editor =
      menu ++ (engines.filter (fun engine => engine.selected)).map (engineItem editor.selection)
        ++ (if engines.length = 0 then [noEngineItem] else []) := by
  unfold editorMenu
  simp only [foldl_append_singleton]
  split <;> simp

theorem addCommands_eq (engines : List SearchEngine) (commands : List Command) :
    addCommandsForCustomEngines engines commands = commands ++ engines.map engineCommand := by
  unfold addCommandsForCustomEngines
  exact foldl_append_singleton engineCommand engines commands

theorem insertIdx_append_length {α : Type} (x : α) (l2 : List α) :
    ∀ (l1 : List α), (l1 ++ l2).insertIdx l1.length x = l1 ++ x :: l2
  | [] => by simp
  | a :: l1 => by
      simp [List.insertIdx_succ_cons, insertIdx_append_length x l2 l1]

theorem set_eq_take_cons_drop {α : Type} (x : α) :
    ∀ (l : List α) (i : Nat), i < l.length → l.set i x = l.take i ++ x :: l.drop (i + 1)
  | [], _, h => by simp at h
  | _ :: _, 0, _ => by simp
  | a :: l, i + 1, h => by
      have h1 : i < l.length := by simpa using h
      simp [set_eq_take_cons_drop x l i h1]

theorem eq_take_cons_drop {α : Type} :
    ∀ (l : List α) (i : Nat) (h : i < l.length), l = l.take i ++ l.get ⟨i, h⟩ :: l.drop (i + 1)
  | [], _, h => by simp at h
  | _ :: _, 0, _ => by simp
  | a :: l, i + 1, h => by
      have h1 : i < l.length := by simpa using h
      have ih := eq_take_cons_drop l i h1
      simp only [List.take_succ_cons, List.drop_succ_cons, List.cons_append, List.get_eq_getElem,
        List.getElem_cons_succ] at ih ⊢
      rw [← ih]

theorem filter_selected_set (engines : List SearchEngine) (index : Nat)
    (h : index < engines.length) (hun : (engines.get ⟨index, h⟩).selected = false) :
    engines.filter (fun engine => engine.selected) =
        (engines.take index).filter (fun engine => engine.selected) ++
          (engines.drop (index + 1)).filter (fun engine => engine.selected) ∧
    (engines.set index { engines.get ⟨index, h⟩ with selected := true }).filter
        (fun engine => engine.selected) =
        (engines.take index).filter (fun engine => engine.selected) ++
          { engines.get ⟨index, h⟩ with selected := true } ::
            (engines.drop (index + 1)).filter (fun engine => engine.selected) := by
  constructor
  · conv_lhs => rw [eq_take_cons_drop engines index h]
    rw [List.filter_append, List.filter_cons]
    have hun2 : engines[index].selected = false := hun
    simp [hun2]
  · rw [set_eq_take_cons_drop _ engines index h, List.filter_append, List.filter_cons]
    simp

/-! ## Helper lemmas: settings -/

theorem setProp_nil (key : String) (value : JSValue) :
    setProp [] key value = if key = "__proto__" then [] else [(key, value)] := rfl

theorem setProp_cons (k0 : String) (v0 : JSValue) (rest : JSObject) (key : String)
    (value : JSValue) :
    setProp ((k0, v0) :: rest) key value =
      if k0 = key then (k0, value) :: rest else (k0, v0) :: setProp rest key value := rfl

theorem getProp_nil (k : String) : getProp [] k = none := rfl

theorem getProp_cons (k0 : String) (v0 : JSValue) (rest : JSObject) (k : String) :
    getProp ((k0, v0) :: rest) k = if k0 = k then some v0 else getProp rest k := rfl

theorem getProp_setProp (key : String) (value : JSValue) :
    ∀ (o : JSObject) (k : String), getProp o "__proto__" = none →
      getProp (setProp o key value) k =
        if key = k ∧ key ≠ "__proto__" then some value else getProp o k
  | [], k, _ => by
      rw [setProp_nil]
      by_cases hp : key = "__proto__"
      · simp [hp, getProp_nil]
      · by_cases hk : key = k
        · subst hk
          simp [hp, getProp_cons]
        · simp [hp, hk, getProp_nil, getProp_cons]
  | (k0, v0) :: rest, k, hno => by
      rw [getProp_cons] at hno
      have h0p : ¬ k0 = "__proto__" := by
        intro he
        simp [he] at hno
      have hrest : getProp rest "__proto__" = none := by
        simpa [h0p] using hno
      rw [setProp_cons]
      by_cases h0 : k0 = key
      · subst h0
        by_cases h1 : k0 = k
        · subst h1
          simp [getProp_cons, h0p]
        · simp [getProp_cons, h1]
      · rw [if_neg h0, getProp_cons, getProp_cons, getProp_setProp key value rest k hrest]
        by_cases h1 : k0 = k
        · subst h1
          have h2 : ¬ key = k0 := fun h => h0 h.symm
          simp [h2]
        · simp [h1]

theorem getProp_proto_setProp (key : String) (value : JSValue) (o : JSObject)
    (hno : getProp o "__proto__" = none) :
    getProp (setProp o key value) "__proto__" = none := by
  rw [getProp_setProp key value o _ hno]
  by_cases hp : key = "__proto__" <;> simp [hp, hno]

theorem getProp_eq_none_of_not_mem :
    ∀ (o : JSObject) (k : String), k ∉ keys o → getProp o k = none
  | [], _, _ => rfl
  | (k0, v0) :: rest, k, h => by
      have h1 : ¬ k0 = k := by
        intro he
        exact h (by simp [keys, he])
      have h2 : k ∉ keys rest := by
        intro hm
        exact h (by simp only [keys, List.map_cons, List.mem_cons]; exact Or.inr hm)
      simp [getProp, h1, getProp_eq_none_of_not_mem rest k h2]

theorem getProp_foldl_setProp :
    ∀ (source target : JSObject) (k : String), (keys source).Nodup →
      getProp target "__proto__" = none →
      getProp (source.foldl (fun t kv => setProp t kv.1 kv.2) target) k =
        if k = "__proto__" then none
        else match getProp source k with
          | some v => some v
          | none => getProp target k
  | [], target, k, _, hno => by
      by_cases hp : k = "__proto__"
      · subst hp
        simp [hno]
      · simp [hp, getProp_nil]
  | (k0, v0) :: rest, target, k, hnd, hno => by
      have hnd2 : k0 ∉ keys rest ∧ (keys rest).Nodup := by
        simpa [keys] using hnd
      rw [List.foldl_cons, getProp_foldl_setProp rest _ k hnd2.2
        (getProp_proto_setProp k0 v0 target hno)]
      by_cases hp : k = "__proto__"
      · simp [hp]
      · rw [if_neg hp, if_neg hp, getProp_cons, getProp_setProp k0 v0 target k hno]
        by_cases h1 : k0 = k
        · subst h1
          simp [getProp_eq_none_of_not_mem rest k0 hnd2.1, hp]
        · simp [h1]

theorem loadSettings_some (stored : JSObject) :
    loadSettings (some stored) =
      stored.foldl (fun t kv => setProp t kv.1 kv.2) DEFAULT_SETTINGS := by
  simp [loadSettings, objectAssign, DEFAULT_SETTINGS, setProp]

theorem getProp_proto_default : getProp DEFAULT_SETTINGS "__proto__" = none := by decide

/-! ## Helper lemmas: the webview leaf -/

theorem getLeavesOfType_cons_pos (t : String) (a : Leaf) (l : List Leaf)
    (h : (a.view.getViewType == t) = true) :
    getLeavesOfType (a :: l) t = a :: getLeavesOfType l t := by
  unfold getLeavesOfType
  exact List.filter_cons_of_pos h

theorem getLeavesOfType_cons_neg (t : String) (a : Leaf) (l : List Leaf)
    (h : ¬ (a.view.getViewType == t) = true) :
    getLeavesOfType (a :: l) t = getLeavesOfType l t := by
  unfold getLeavesOfType
  exact List.filter_cons_of_neg h

theorem firstLeafOfType_none (t : String) :
    ∀ (leaves : List Leaf), firstLeafOfType t leaves = none → getLeavesOfType leaves t = []
  | [], _ => rfl
  | a :: l, h => by
      by_cases ha : (a.view.getViewType == t) = true
      · simp [firstLeafOfType, ha] at h
      · have hl : firstLeafOfType t l = none := by
          simpa [firstLeafOfType, ha] using h
        rw [getLeavesOfType_cons_neg t a l ha, firstLeafOfType_none t l hl]

theorem firstLeafOfType_some (t : String) :
    ∀ (leaves : List Leaf) (i : Nat), firstLeafOfType t leaves = some i →
      ∃ leaf rest, leaves[i]? = some leaf ∧ (leaf.view.getViewType == t) = true ∧
        getLeavesOfType leaves t = leaf :: rest ∧
        ∀ newLeaf : Leaf, (newLeaf.view.getViewType == t) = true →
          getLeavesOfType (leaves.set i newLeaf) t = newLeaf :: rest
  | [], _, h => by simp [firstLeafOfType] at h
  | a :: l, i, h => by
      by_cases ha : (a.view.getViewType == t) = true
      · have hi : i = 0 := by
          simpa [firstLeafOfType, ha] using h.symm
        subst hi
        refine ⟨a, getLeavesOfType l t, by simp, ha, getLeavesOfType_cons_pos t a l ha, ?_⟩
        intro newLeaf hnew
        rw [List.set_cons_zero, getLeavesOfType_cons_pos t newLeaf l hnew]
      · have hl : ∃ j, firstLeafOfType t l = some j ∧ j + 1 = i := by
          simpa [firstLeafOfType, ha] using h
        obtain ⟨j, hj, hji⟩ := hl
        subst hji
        obtain ⟨leaf, rest, hget, htype, hfilter, hset⟩ := firstLeafOfType_some t l j hj
        refine ⟨leaf, rest, by simpa using hget, htype, ?_, ?_⟩
        · rw [getLeavesOfType_cons_neg t a l ha, hfilter]
        · intro newLeaf hnew
          rw [List.set_cons_succ, getLeavesOfType_cons_neg t a _ ha, hset newLeaf hnew]

theorem getElem?_lt_of_some {α : Type} (l : List α) (i : Nat) (a : α) (h : l[i]? = some a) :
    i < l.length := by
  by_contra hge
  have hnone : l[i]? = none := List.getElem?_eq_none (by omega)
  rw [hnone] at h
  cases h

theorem activateWebview_create (p : Plugin) (url engineName : String)
    (h : firstLeafOfType "webview-view" p.leaves = none) :
    activateWebview p url engineName =
      { leaves := p.leaves ++
          [{ view := .webviewView ((onOpen p.useMobileUserAgent).setUrl url) }]
        revealed := some p.leaves.length
        currentEngineName := some engineName
        useMobileUserAgent := p.useMobileUserAgent } := by
  have hempty : (View.empty.getViewType == "webview-view") = false := by decide
  have hwv : ∀ v, ((View.webviewView v).getViewType == "webview-view") = true := fun _ => by
    simp [View.getViewType]
  simp [activateWebview, h, setViewState, showInLeaf, hempty, hwv]

theorem activateWebview_reuse (p : Plugin) (url engineName : String) (i : Nat)
    (view : WebviewView) (h : firstLeafOfType "webview-view" p.leaves = some i)
    (hleaf : p.leaves[i]? = some { view := .webviewView view }) :
    activateWebview p url engineName =
      { leaves := p.leaves.set i { view := .webviewView (view.setUrl url) }
        revealed := some i
        currentEngineName := some engineName
        useMobileUserAgent := p.useMobileUserAgent } := by
  have hi := getElem?_lt_of_some _ _ _ hleaf
  have hwv : ∀ v, ((View.webviewView v).getViewType == "webview-view") = true := fun _ => by
    simp [View.getViewType]
  simp [activateWebview, h, setViewState, showInLeaf, hleaf, hwv, hi]

theorem activateWebview_foreign (p : Plugin) (url engineName : String) (i : Nat)
    (leaf : Leaf) (h : firstLeafOfType "webview-view" p.leaves = some i)
    (hleaf : p.leaves[i]? = some leaf) (hview : ∀ view, leaf.view ≠ .webviewView view) :
    activateWebview p url engineName = p := by
  obtain ⟨v⟩ := leaf
  cases v with
  | empty => simp [activateWebview, h, showInLeaf, hleaf]
  | webviewView view => exact absurd rfl (hview view)
  | other viewType => simp [activateWebview, h, showInLeaf, hleaf]

theorem activateWebview_single (p : Plugin) (url engineName : String)
    (hone : (getLeavesOfType p.leaves "webview-view").length ≤ 1)
    (hopen : ∀ leaf ∈ getLeavesOfType p.leaves "webview-view",
      ∃ webview, leaf.view = .webviewView { webview := some webview }) :
    (∃ useragent, getLeavesOfType (activateWebview p url engineName).leaves "webview-view" =
      [{ view := .webviewView { webview := some { src := some url, useragent := useragent } } }]) ∧
    (activateWebview p url engineName).currentEngineName = some engineName := by
  cases h : firstLeafOfType "webview-view" p.leaves with
  | none =>
      rw [activateWebview_create p url engineName h]
      refine ⟨⟨if p.useMobileUserAgent then some mobileUserAgent else none, ?_⟩, rfl⟩
      have hnil := firstLeafOfType_none _ _ h
      simp only [getLeavesOfType] at hnil ⊢
      rw [List.filter_append, hnil]
      simp [onOpen, WebviewView.setUrl, View.getViewType]
  | some i =>
      obtain ⟨leaf, rest, hget, _, hfilter, hset⟩ := firstLeafOfType_some _ _ _ h
      have hrest : rest = [] := by
        rw [hfilter] at hone
        exact List.length_eq_zero.mp (by simpa using hone)
      obtain ⟨webview, hview⟩ := hopen leaf (by rw [hfilter]; exact List.mem_cons_self _ _)
      obtain ⟨v⟩ := leaf
      simp only at hview
      subst hview
      rw [activateWebview_reuse p url engineName i _ h hget]
      refine ⟨⟨webview.useragent, ?_⟩, rfl⟩
      rw [hset _ (by simp [View.getViewType]), hrest]
      rfl

theorem activateWebview_count (p : Plugin) (url engineName : String) :
    (getLeavesOfType (activateWebview p url engineName).leaves "webview-view").length =
      max 1 (getLeavesOfType p.leaves "webview-view").length := by
  cases h : firstLeafOfType "webview-view" p.leaves with
  | none =>
      rw [activateWebview_create p url engineName h]
      have hnil := firstLeafOfType_none _ _ h
      rw [hnil]
      simp only [getLeavesOfType] at hnil ⊢
      rw [List.filter_append, hnil]
      simp [View.getViewType]
  | some i =>
      obtain ⟨leaf, rest, hget, _, hfilter, hset⟩ := firstLeafOfType_some _ _ _ h
      have hmax : max 1 (leaf :: rest).length = (leaf :: rest).length := by
        simp only [List.length_cons]; omega
      by_cases hv : ∃ view, leaf.view = .webviewView view
      · obtain ⟨view, hview⟩ := hv
        obtain ⟨v⟩ := leaf
        simp only at hview
        subst hview
        rw [activateWebview_reuse p url engineName i view h hget, hfilter, hmax]
        simp only []
        rw [hset _ (by simp [View.getViewType])]
        rfl
      · have hview : ∀ view, leaf.view ≠ .webviewView view := fun view hv2 => hv ⟨view, hv2⟩
        rw [activateWebview_foreign p url engineName i leaf h hget hview, hfilter, hmax]

/-! ## Reorder: claims -/

/-- C1: for every engine list and valid `fromIndex`, `toIndex`, the array left by the
drop handler is a permutation of the original array and has its length; and dropping
row `i` on itself leaves the array as it was. -/
theorem ondrop_perm_length_noop (engines : List SearchEngine) (fromIndex toIndex : Nat)
    (hfrom : fromIndex < engines.length) (hto : toIndex < engines.length) :
    (ondrop engines fromIndex toIndex).Perm (engines.map some) ∧
    (ondrop engines fromIndex toIndex).length = engines.length ∧
    (∀ i, i < engines.length → ondrop engines i i = engines.map some) := by
  have hle := length_eraseIdx_of_valid engines fromIndex toIndex hfrom hto
  refine ⟨?_, ?_, ?_⟩
  · rw [ondrop_eq_erase_insert engines fromIndex toIndex hfrom hto]
    exact ((List.perm_insertIdx _ _ hle).trans
      (cons_eraseIdx_perm engines fromIndex hfrom)).map some
  · rw [ondrop_eq_erase_insert engines fromIndex toIndex hfrom hto, List.length_map,
      List.length_insertIdx _ _ hle, List.length_eraseIdx]
    simp [hfrom]; omega
  · intro i hi
    rw [ondrop_eq_erase_insert engines i i hi hi, insertIdx_eraseIdx_self engines i hi]

/-- Witness of C1: three engines, the first dropped on the third row. -/
theorem ondrop_perm_length_noop_witness :
    (ondrop [SearchEngine.mk "A" "a" true, SearchEngine.mk "" "" false,
        SearchEngine.mk "C" "c" false] 0 2).Perm
      ([SearchEngine.mk "A" "a" true, SearchEngine.mk "" "" false,
        SearchEngine.mk "C" "c" false].map some) ∧
    (ondrop [SearchEngine.mk "A" "a" true, SearchEngine.mk "" "" false,
        SearchEngine.mk "C" "c" false] 0 2).length = 3 ∧
    (∀ i, i < 3 → ondrop [SearchEngine.mk "A" "a" true, SearchEngine.mk "" "" false,
        SearchEngine.mk "C" "c" false] i i =
      [SearchEngine.mk "A" "a" true, SearchEngine.mk "" "" false,
        SearchEngine.mk "C" "c" false].map some) :=
  ondrop_perm_length_noop _ 0 2 (by decide) (by decide)

/-- C8: for every engine list and valid `fromIndex`, `toIndex`, the array left by the
drop handler is the original array with the element at `fromIndex` removed and then
inserted at position `toIndex` of the shortened array; the moved engine is at index
`toIndex` of the result, and removing it from there leaves the other engines in their
original order. -/
theorem ondrop_remove_then_insert (engines : List SearchEngine) (fromIndex toIndex : Nat)
    (hfrom : fromIndex < engines.length) (hto : toIndex < engines.length) :
    ondrop engines fromIndex toIndex =
      ((engines.eraseIdx fromIndex).insertIdx toIndex (engines.get ⟨fromIndex, hfrom⟩)).map some ∧
    (ondrop engines fromIndex toIndex)[toIndex]? = some (some (engines.get ⟨fromIndex, hfrom⟩)) ∧
    (ondrop engines fromIndex toIndex).eraseIdx toIndex = (engines.eraseIdx fromIndex).map some := by
  have hle := length_eraseIdx_of_valid engines fromIndex toIndex hfrom hto
  have hlen : toIndex < ((engines.eraseIdx fromIndex).insertIdx toIndex
      (engines.get ⟨fromIndex, hfrom⟩)).length := by
    rw [List.length_insertIdx _ _ hle]; omega
  rw [ondrop_eq_erase_insert engines fromIndex toIndex hfrom hto]
  refine ⟨rfl, ?_, ?_⟩
  · rw [List.getElem?_map, List.getElem?_eq_getElem hlen,
      List.getElem_insertIdx_self _ _ _ hle]
    rfl
  · rw [eraseIdx_map, List.eraseIdx_insertIdx]

/-- Witness of C8: four engines, the last dropped on the second row; the result is
not the swap of the two rows. -/
theorem ondrop_remove_then_insert_witness :
    ondrop [SearchEngine.mk "A" "a" true, SearchEngine.mk "B" "b" false,
        SearchEngine.mk "C" "c" true, SearchEngine.mk "D" "d" false] 3 1 =
      [some (SearchEngine.mk "A" "a" true), some (SearchEngine.mk "D" "d" false),
        some (SearchEngine.mk "B" "b" false), some (SearchEngine.mk "C" "c" true)] :=
  (ondrop_remove_then_insert [SearchEngine.mk "A" "a" true, SearchEngine.mk "B" "b" false,
    SearchEngine.mk "C" "c" true, SearchEngine.mk "D" "d" false] 3 1
    (by decide) (by decide)).1.trans (by decide)

/-! ## Context menu: claims -/

/-- C2: the entries the editor-menu handler adds for engines are the engines with
`selected` true, in registry order, each titled with the engine's name (after them
comes the no-engine entry, only when the registry is empty); and when the engine at
`index` is unselected, switching its toggle on and rebuilding the menu gives the
former menu with one entry more, the one of that engine, titled with its name. -/
theorem editorMenu_selected_in_order (engines : List SearchEngine) (menu : List MenuItem)
    (editor : Editor) :
    editorMenu engines menu editor =
      menu ++ (engines.filter (fun engine => engine.selected)).map (engineItem editor.selection)
        ++ (if engines.length = 0 then [noEngineItem] else []) ∧
    ((engines.filter (fun engine => engine.selected)).map (engineItem editor.selection)).map
        (fun item => item.title) =
      (engines.filter (fun engine => engine.selected)).map (fun engine => engine.name) ∧
    (∀ (index : Nat) (h : index < engines.length),
      (engines.get ⟨index, h⟩).selected = false →
      ∃ engines2 position,
        setSelected engines index true = some engines2 ∧
        editorMenu engines2 menu editor =
          (editorMenu engines menu editor).insertIdx position
            (engineItem editor.selection { engines.get ⟨index, h⟩ with selected := true }) ∧
        position ≤ (editorMenu engines menu editor).length ∧
        (editorMenu engines2 menu editor).length = (editorMenu engines menu editor).length + 1 ∧
        (engineItem editor.selection { engines.get ⟨index, h⟩ with selected := true }).title =
          (engines.get ⟨index, h⟩).name) := by
  refine ⟨editorMenu_eq engines menu editor, ?_, ?_⟩
  · simp [engineItem, Function.comp_def]
  · intro index h hun
    obtain ⟨hold, hnew⟩ := filter_selected_set engines index h hun
    have hne : ¬ engines.length = 0 := by omega
    have hset : setSelected engines index true
        = some (engines.set index { engines.get ⟨index, h⟩ with selected := true }) := by
      simp [setSelected, List.getElem?_eq_getElem h]
    have hmenu : editorMenu (engines.set index { engines.get ⟨index, h⟩ with selected := true })
          menu editor =
        (editorMenu engines menu editor).insertIdx
          (menu ++ ((engines.take index).filter (fun engine => engine.selected)).map
            (engineItem editor.selection)).length
          (engineItem editor.selection { engines.get ⟨index, h⟩ with selected := true }) := by
      rw [editorMenu_eq, editorMenu_eq, hnew, hold]
      simp only [List.length_set, hne, if_false, List.append_nil, List.map_append, List.map_cons]
      rw [← List.append_assoc, ← List.append_assoc, insertIdx_append_length]
    refine ⟨_, _, hset, hmenu, ?_, ?_, rfl⟩
    · rw [editorMenu_eq, hold]
      simp only [List.length_append, List.length_map]
      omega
    · rw [hmenu, List.length_insertIdx]
      rw [editorMenu_eq, hold]
      simp only [List.length_append, List.length_map]
      omega

/-- Witness of C2: three engines, the second unselected and switched on. -/
theorem editorMenu_selected_in_order_witness :
    ∃ engines2 position,
      setSelected [SearchEngine.mk "A" "a" true, SearchEngine.mk "B" "b" false,
        SearchEngine.mk "C" "c" true] 1 true = some engines2 ∧
      editorMenu engines2 [] (Editor.mk "x") =
        (editorMenu [SearchEngine.mk "A" "a" true, SearchEngine.mk "B" "b" false,
          SearchEngine.mk "C" "c" true] [] (Editor.mk "x")).insertIdx position
          (engineItem "x" (SearchEngine.mk "B" "b" true)) ∧
      position ≤ (editorMenu [SearchEngine.mk "A" "a" true, SearchEngine.mk "B" "b" false,
          SearchEngine.mk "C" "c" true] [] (Editor.mk "x")).length ∧
      (editorMenu engines2 [] (Editor.mk "x")).length =
        (editorMenu [SearchEngine.mk "A" "a" true, SearchEngine.mk "B" "b" false,
          SearchEngine.mk "C" "c" true] [] (Editor.mk "x")).length + 1 ∧
      (engineItem "x" (SearchEngine.mk "B" "b" true)).title = "B" :=
  (editorMenu_selected_in_order [SearchEngine.mk "A" "a" true, SearchEngine.mk "B" "b" false,
    SearchEngine.mk "C" "c" true] [] (Editor.mk "x")).2.2 1 (by decide) rfl

/-- C3, as the claim states it, fails: with one engine in the registry, unselected,
the handler adds no entry at all. -/
theorem editorMenu_all_unselected_counterexample :
    (∀ engine ∈ [SearchEngine.mk "Bing" "https://www.bing.com/search?q=" false],
        engine.selected = false) ∧
    editorMenu [SearchEngine.mk "Bing" "https://www.bing.com/search?q=" false] []
        (Editor.mk "hello") = [] ∧
    (editorMenu [SearchEngine.mk "Bing" "https://www.bing.com/search?q=" false] []
        (Editor.mk "hello")).length ≠ 1 := by
  refine ⟨by decide, rfl, by decide⟩

/-- C3, amended: when no engine of the registry is selected, the handler adds exactly
one entry, the one titled "无自定义搜索引擎" whose click shows a notice, if the registry
is empty, and adds nothing if the registry is not empty. -/
theorem editorMenu_none_selected (engines : List SearchEngine) (menu : List MenuItem)
    (editor : Editor) (hnone : ∀ engine ∈ engines, engine.selected = false) :
    (engines = [] → editorMenu engines menu editor = menu ++ [noEngineItem]) ∧
    (engines ≠ [] → editorMenu engines menu editor = menu) ∧
    noEngineItem.title = "无自定义搜索引擎" ∧
    (∀ activeEditor, noEngineItem.onClick activeEditor =
      [Call.notice "请在设置中添加一个自定义搜索引擎"]) := by
  have hfilter : engines.filter (fun engine => engine.selected) = [] := by
    rw [List.filter_eq_nil_iff]
    intro engine hmem
    simp [hnone engine hmem]
  refine ⟨?_, ?_, rfl, fun _ => rfl⟩
  · intro hnil
    subst hnil
    rfl
  · intro hne
    have hlen : ¬ engines.length = 0 := by
      intro h0
      exact hne (List.length_eq_zero.mp h0)
    rw [editorMenu_eq, hfilter]
    simp [hlen]

/-- Witness of C3 amended: two unselected engines, nothing is added to the menu. -/
theorem editorMenu_none_selected_witness :
    editorMenu [SearchEngine.mk "A" "a" false, SearchEngine.mk "" "" false] []
      (Editor.mk "x") = [] :=
  (editorMenu_none_selected [SearchEngine.mk "A" "a" false, SearchEngine.mk "" "" false] []
    (Editor.mk "x") (by decide)).2.1 (by decide)

/-! ## Search URL and commands: claims -/

/-- C5: the click handler of an engine's menu entry and the engine's command (run
with an active editor) both call `activateWebview` with the engine's URL followed by
the `encodeURIComponent` of the selected text, and with the engine's name as label;
the engine's URL is a prefix of that URL; for Bing and "hello world" the URL is
"https://www.bing.com/search?q=hello%20world" and the label "Bing". -/
theorem searchUrl_is_template_then_escaped (engine : SearchEngine) (selectedText : String)
    (atClick : Option Editor) :
    (engineItem selectedText engine).onClick atClick =
      [Call.activateWebview (engine.url ++ encodeURIComponent selectedText) engine.name] ∧
    (engineCommand engine).checkCallback (some (Editor.mk selectedText)) false =
      { returned := none
        calls := [Call.activateWebview (engine.url ++ encodeURIComponent selectedText)
          engine.name] } ∧
    engine.url.data <+: (searchUrl engine selectedText).data ∧
    (engineItem "hello world"
        (SearchEngine.mk "Bing" "https://www.bing.com/search?q=" true)).onClick atClick =
      [Call.activateWebview "https://www.bing.com/search?q=hello%20world" "Bing"] ∧
    ((engineCommand (SearchEngine.mk "Bing" "https://www.bing.com/search?q=" true)).checkCallback
        (some (Editor.mk "hello world")) false).calls =
      [Call.activateWebview "https://www.bing.com/search?q=hello%20world" "Bing"] := by
  refine ⟨rfl, rfl, ?_, by rfl, by decide⟩
  exact ⟨(encodeURIComponent selectedText).data, rfl⟩

/-- C7, as the claim states it, fails: the menu is opened on the selection "first",
the Bing entry is clicked when the selection is "second", and the URL handed to
`activateWebview` is built from "first". -/
theorem editorMenu_click_time_counterexample :
    (editorMenu [SearchEngine.mk "Bing" "https://www.bing.com/search?q=" true] []
        (Editor.mk "first")).map (fun item => item.onClick (some (Editor.mk "second"))) =
      [[Call.activateWebview "https://www.bing.com/search?q=first" "Bing"]] ∧
    (editorMenu [SearchEngine.mk "Bing" "https://www.bing.com/search?q=" true] []
        (Editor.mk "first")).map (fun item => item.onClick (some (Editor.mk "second"))) ≠
      [[Call.activateWebview
        ("https://www.bing.com/search?q=" ++ encodeURIComponent "second") "Bing"]] := by
  refine ⟨by decide, by decide⟩

/-- C7, amended: for every selection `s1` in effect when the menu is opened and every
host state at the click, the URL an engine entry hands to `activateWebview` is the
engine's URL followed by the escaped `s1`, the text read when the handler built the
entry. -/
theorem editorMenu_click_uses_open_time_selection (engines : List SearchEngine) (s1 : String)
    (atClick : Option Editor) :
    (editorMenu engines [] (Editor.mk s1)).map (fun item => item.onClick atClick) =
      (engines.filter (fun engine => engine.selected)).map
          (fun engine =>
            [Call.activateWebview (engine.url ++ encodeURIComponent s1) engine.name])
        ++ (if engines.length = 0 then [[Call.notice "请在设置中添加一个自定义搜索引擎"]]
            else []) := by
  rw [editorMenu_eq]
  split <;> simp [engineItem, noEngineItem, searchUrl, Function.comp_def]

/-- C4, as the claim states it, fails: with an active editor whose selection is the
empty string, the command's `checkCallback` in checking mode returns `true`. -/
theorem checkCallback_empty_selection_counterexample :
    ((engineCommand (SearchEngine.mk "Bing" "https://www.bing.com/search?q=" true)).checkCallback
        (some (Editor.mk "")) true).returned = some true ∧
    ((engineCommand (SearchEngine.mk "Bing" "https://www.bing.com/search?q=" true)).checkCallback
        (some (Editor.mk "")) true).returned ≠ some false := by
  refine ⟨rfl, by decide⟩

/-- C4, amended: for every registered engine command and every host state, the
`checkCallback` in checking mode makes no call and returns `true` exactly when there
is an active editor, whatever its selection (also the empty one), and `false` when
there is none. -/
theorem checkCallback_checking (engines : List SearchEngine) (activeEditor : Option Editor) :
    (addCommandsForCustomEngines engines []).map
        (fun command => command.checkCallback activeEditor true) =
      engines.map (fun _ => { returned := some activeEditor.isSome, calls := [] }) ∧
    (∀ engine editor, checkCallback engine (some editor) true =
      { returned := some true, calls := [] }) ∧
    (∀ engine, checkCallback engine none true = { returned := some false, calls := [] }) := by
  refine ⟨?_, fun _ _ => rfl, fun _ => rfl⟩
  rw [addCommands_eq]
  simp [engineCommand, checkCallback, Function.comp_def]

/-- C9: `addCommandsForCustomEngines` registers one command per engine of the
registry, selected or not, in registry order: as many commands as engines, and the
identifier of the i-th command is "search-with-" followed by the name of the i-th
engine. -/
theorem addCommands_one_per_engine (engines : List SearchEngine) (commands : List Command) :
    addCommandsForCustomEngines engines commands = commands ++ engines.map engineCommand ∧
    (addCommandsForCustomEngines engines []).length = engines.length ∧
    (addCommandsForCustomEngines engines []).map (fun command => command.id) =
      engines.map (fun engine => "search-with-" ++ engine.name) ∧
    (∀ i : Nat, ((addCommandsForCustomEngines engines [])[i]?).map (fun command => command.id) =
      (engines[i]?).map (fun engine => "search-with-" ++ engine.name)) := by
  refine ⟨addCommands_eq engines commands, ?_, ?_, ?_⟩
  · simp [addCommands_eq]
  · simp [addCommands_eq, engineCommand, Function.comp_def]
  · intro i
    simp only [addCommands_eq, List.nil_append, List.getElem?_map, Option.map_map]
    rfl

/-! ## Settings: claims -/

/-- C10, as the claim states it, fails: a store whose record has the own key
`__proto__` is loaded into a record without that key, and the default of
`buttonOpacity` is not the string "opaque". -/
theorem loadSettings_stored_key_counterexample :
    (keys [("__proto__", JSValue.str "x")]).Nodup ∧
    getProp [("__proto__", JSValue.str "x")] "__proto__" = some (JSValue.str "x") ∧
    getProp (loadSettings (some [("__proto__", JSValue.str "x")])) "__proto__" = none ∧
    getProp (loadSettings (some [("__proto__", JSValue.str "x")])) "__proto__" ≠
      some (JSValue.str "x") ∧
    getProp (loadSettings none) "buttonOpacity" ≠ some (JSValue.str "opaque") := by
  refine ⟨by decide, by decide, by decide, by decide, by decide⟩

/-- C10, amended: for every stored record (an object, no key twice), `loadSettings`
yields a record in which every key of the store other than `__proto__` has the stored
value, `__proto__` is no key of the result, and every key missing from the store has
the value of `DEFAULT_SETTINGS`, where `useMobileUserAgent` is `false`,
`buttonOpacity` is the string "不透明" and `customSearchEngines` is the empty list;
with no stored data the result is `DEFAULT_SETTINGS`; and saving a settings record and
loading it back gives back its ordered engine sequence. -/
theorem loadSettings_merges_over_defaults (stored settings : JSObject)
    (hstored : (keys stored).Nodup) (hsettings : (keys settings).Nodup) :
    (∀ key value, key ≠ "__proto__" → getProp stored key = some value →
      getProp (loadSettings (some stored)) key = some value) ∧
    getProp (loadSettings (some stored)) "__proto__" = none ∧
    (∀ key, getProp stored key = none →
      getProp (loadSettings (some stored)) key = getProp DEFAULT_SETTINGS key) ∧
    loadSettings none = DEFAULT_SETTINGS ∧
    DEFAULT_SETTINGS =
      [("useMobileUserAgent", JSValue.bool false), ("buttonOpacity", JSValue.str "不透明"),
        ("customSearchEngines", JSValue.engines [])] ∧
    (∀ engines, getProp settings "customSearchEngines" = some (JSValue.engines engines) →
      getProp (loadSettings (saveSettings settings)) "customSearchEngines" =
        some (JSValue.engines engines)) := by
  have hload : ∀ (o : JSObject) (key : String), (keys o).Nodup →
      getProp (loadSettings (some o)) key =
        if key = "__proto__" then none
        else match getProp o key with
          | some v => some v
          | none => getProp DEFAULT_SETTINGS key := by
    intro o key ho
    rw [loadSettings_some, getProp_foldl_setProp o _ key ho getProp_proto_default]
  refine ⟨?_, ?_, ?_, by decide, rfl, ?_⟩
  · intro key value hkey h
    rw [hload stored key hstored, if_neg hkey, h]
  · rw [hload stored _ hstored, if_pos rfl]
  · intro key h
    rw [hload stored key hstored, h]
    by_cases hkey : key = "__proto__"
    · subst hkey
      rw [if_pos rfl, getProp_proto_default]
    · rw [if_neg hkey]
  · intro engines h
    rw [saveSettings, hload settings _ hsettings, if_neg (by decide), h]

/-- Witness of C10 amended: a store that holds the engine list and a `__proto__` key,
and a settings record with three engines, one selected, one unselected, one with an
empty name. -/
theorem loadSettings_merges_over_defaults_witness :
    getProp (loadSettings (some [("customSearchEngines",
        JSValue.engines [SearchEngine.mk "Bing" "https://www.bing.com/search?q=" true]),
        ("__proto__", JSValue.bool true)]))
      "customSearchEngines" =
      some (JSValue.engines [SearchEngine.mk "Bing" "https://www.bing.com/search?q=" true]) ∧
    getProp (loadSettings (some [("customSearchEngines",
        JSValue.engines [SearchEngine.mk "Bing" "https://www.bing.com/search?q=" true]),
        ("__proto__", JSValue.bool true)]))
      "__proto__" = none ∧
    getProp (loadSettings (some [("customSearchEngines",
        JSValue.engines [SearchEngine.mk "Bing" "https://www.bing.com/search?q=" true]),
        ("__proto__", JSValue.bool true)]))
      "buttonOpacity" = some (JSValue.str "不透明") ∧
    getProp (loadSettings (saveSettings
        [("useMobileUserAgent", JSValue.bool true), ("buttonOpacity", JSValue.str "半透明"),
          ("customSearchEngines", JSValue.engines
            [SearchEngine.mk "A" "a" true, SearchEngine.mk "B" "b" false,
              SearchEngine.mk "" "" false])]))
      "customSearchEngines" =
      some (JSValue.engines
        [SearchEngine.mk "A" "a" true, SearchEngine.mk "B" "b" false,
          SearchEngine.mk "" "" false]) :=
  have h := loadSettings_merges_over_defaults
    [("customSearchEngines",
      JSValue.engines [SearchEngine.mk "Bing" "https://www.bing.com/search?q=" true]),
      ("__proto__", JSValue.bool true)]
    [("useMobileUserAgent", JSValue.bool true), ("buttonOpacity", JSValue.str "半透明"),
      ("customSearchEngines", JSValue.engines
        [SearchEngine.mk "A" "a" true, SearchEngine.mk "B" "b" false,
          SearchEngine.mk "" "" false])]
    (by decide) (by decide)
  ⟨h.1 _ _ (by decide) (by decide), h.2.1,
    (h.2.2.1 "buttonOpacity" (by decide)).trans (by decide), h.2.2.2.2.2 _ (by decide)⟩

/-! ## The webview leaf: claims -/

/-- C6, as the claim states it, fails: in a workspace that already holds two
`webview-view` leaves, two runs of `activateWebview` leave two such leaves (the first
one shows the second URL, the other one is untouched). -/
theorem activateWebview_two_leaves_counterexample :
    (getLeavesOfType (activateWebview (activateWebview
        { leaves := [{ view := .webviewView (onOpen false) },
            { view := .webviewView (onOpen false) }]
          revealed := none
          currentEngineName := none
          useMobileUserAgent := false } "u1" "l1") "u2" "l2").leaves "webview-view").length = 2 ∧
    (getLeavesOfType (activateWebview (activateWebview
        { leaves := [{ view := .webviewView (onOpen false) },
            { view := .webviewView (onOpen false) }]
          revealed := none
          currentEngineName := none
          useMobileUserAgent := false } "u1" "l1") "u2" "l2").leaves "webview-view").length ≠ 1 := by
  refine ⟨by decide, by decide⟩

/-- C6, amended: from every workspace state that holds at most one `webview-view`
leaf, that leaf (if there is one) holding an opened `WebviewView`, running
`activateWebview(url1, label1)` and then `activateWebview(url2, label2)` leaves exactly
one `webview-view` leaf, whose `webview` has `src` equal to `url2`, and
`currentEngineName` equal to `label2`; and from every workspace state one run leaves
`max 1 n` such leaves, `n` being their number before: a leaf is created only when
there is none. -/
theorem activateWebview_twice (p : Plugin) (url1 label1 url2 label2 : String)
    (hone : (getLeavesOfType p.leaves "webview-view").length ≤ 1)
    (hopen : ∀ leaf ∈ getLeavesOfType p.leaves "webview-view",
      ∃ webview, leaf.view = .webviewView { webview := some webview }) :
    (∃ useragent,
      getLeavesOfType
          (activateWebview (activateWebview p url1 label1) url2 label2).leaves "webview-view" =
        [{ view := .webviewView
            { webview := some { src := some url2, useragent := useragent } } }]) ∧
    (activateWebview (activateWebview p url1 label1) url2 label2).currentEngineName =
      some label2 ∧
    (∀ (p0 : Plugin) (url label : String),
      (getLeavesOfType (activateWebview p0 url label).leaves "webview-view").length =
        max 1 (getLeavesOfType p0.leaves "webview-view").length) := by
  obtain ⟨⟨useragent1, hleaves1⟩, _⟩ := activateWebview_single p url1 label1 hone hopen
  have hone1 : (getLeavesOfType (activateWebview p url1 label1).leaves "webview-view").length
      ≤ 1 := by
    rw [hleaves1]; simp
  have hopen1 : ∀ leaf ∈ getLeavesOfType (activateWebview p url1 label1).leaves "webview-view",
      ∃ webview, leaf.view = .webviewView { webview := some webview } := by
    intro leaf hmem
    rw [hleaves1] at hmem
    simp only [List.mem_singleton] at hmem
    subst hmem
    exact ⟨_, rfl⟩
  obtain ⟨hleaves2, hname2⟩ :=
    activateWebview_single (activateWebview p url1 label1) url2 label2 hone1 hopen1
  exact ⟨hleaves2, hname2, activateWebview_count⟩

/-- Witness of C6 amended: a workspace with one note and one opened webview leaf. -/
theorem activateWebview_twice_witness :
    (∃ useragent,
      getLeavesOfType
          (activateWebview (activateWebview
            { leaves := [{ view := .other "markdown" }, { view := .webviewView (onOpen true) }]
              revealed := none
              currentEngineName := none
              useMobileUserAgent := true } "u1" "l1") "u2" "l2").leaves "webview-view" =
        [{ view := .webviewView
            { webview := some { src := some "u2", useragent := useragent } } }]) ∧
    (activateWebview (activateWebview
        { leaves := [{ view := .other "markdown" }, { view := .webviewView (onOpen true) }]
          revealed := none
          currentEngineName := none
          useMobileUserAgent := true } "u1" "l1") "u2" "l2").currentEngineName = some "l2" :=
  have hleaves : getLeavesOfType
      [{ view := .other "markdown" }, { view := .webviewView (onOpen true) }] "webview-view" =
      [{ view := .webviewView (onOpen true) }] := by decide
  have h := activateWebview_twice
    { leaves := [{ view := .other "markdown" }, { view := .webviewView (onOpen true) }]
      revealed := none
      currentEngineName := none
      useMobileUserAgent := true } "u1" "l1" "u2" "l2" (by decide)
    (fun leaf hmem => by
      rw [hleaves, List.mem_singleton] at hmem
      subst hmem
      exact ⟨_, rfl⟩)
  ⟨h.1, h.2.1⟩

end WebSearch
